import Mathlib

/-!
Shallow embedding of the literal decoders of `src/libsyntax/parse/mod.rs`
(`char_lit`, `str_lit`, `raw_str_lit`, `byte_lit`, `integer_lit`,
`float_lit` / `filtered_float_lit`, `looks_like_width_suffix`).

Conventions of the embedding:
* Rust `&str` values are modelled as `List Char`.  The decoders index the
  text by bytes (`as_bytes()[i]`, `&lit[a..b]`); on every path where those
  indices can be hit with the function returning normally the inspected
  characters are ASCII, where byte indexing and character indexing agree
  (a non-ASCII character in those positions makes the Rust code panic or
  makes the digit parse fail, and both outcomes are `none` below).
* A Rust panic (`panic!`, `expect`, failed `assert!`, `span_bug`, an
  out-of-bounds index or slice) is modelled as `Option.none`.
* Diagnostics emitted through the `Handler` (`span_err`,
  `struct_span_err ... emit`) are modelled as an explicit list of `Diag`
  values returned next to the result, in emission order.
* `u64::from_str_radix` / `u32::from_str_radix` are modelled with the
  final magnitude compared against the type maximum; since every radix
  used here is at least 2, an intermediate checked-arithmetic overflow in
  the Rust implementation happens exactly when the final magnitude
  exceeds the maximum, so the two formulations agree.
-/

namespace RustParse

/-- Diagnostics the numeric literal decoders can emit through the handler,
one constructor per distinct message shape in the source. -/
inductive Diag where
  | intTooLarge : Diag
  | invalidIntWidth : List Char → Diag
  | invalidIntSuffix : List Char → Diag
  | invalidFloatWidth : List Char → Diag
  | invalidFloatSuffix : List Char → Diag
  | hexFloatNotSupported : Diag
  | octFloatNotSupported : Diag
  | binFloatNotSupported : Diag
  deriving DecidableEq, Repr

/-- `ast::IntTy`. -/
inductive IntTy where
  | Is | I8 | I16 | I32 | I64
  deriving DecidableEq, Repr

/-- `ast::UintTy`. -/
inductive UintTy where
  | Us | U8 | U16 | U32 | U64
  deriving DecidableEq, Repr

/-- `ast::FloatTy`. -/
inductive FloatTy where
  | F32 | F64
  deriving DecidableEq, Repr

/-- `ast::LitIntType`. -/
inductive LitIntType where
  | Signed : IntTy → LitIntType
  | Unsigned : UintTy → LitIntType
  | Unsuffixed : LitIntType
  deriving DecidableEq, Repr

/-- The fragment of `ast::LitKind` produced by the numeric decoders.
Interned float text is kept as the character list itself. -/
inductive LitKind where
  | Int : Nat → LitIntType → LitKind
  | Float : List Char → FloatTy → LitKind
  | FloatUnsuffixed : List Char → LitKind
  deriving DecidableEq, Repr

/-- Model of `char::to_digit(radix)`: ASCII digits and letters, value
required to be below the radix. -/
def to_digit (c : Char) (radix : Nat) : Option Nat :=
  let v : Option Nat :=
    if '0' ≤ c ∧ c ≤ '9' then some (c.toNat - 48)
    else if 'a' ≤ c ∧ c ≤ 'z' then some (c.toNat - 87)
    else if 'A' ≤ c ∧ c ≤ 'Z' then some (c.toNat - 55)
    else none
  match v with
  | some d => if d < radix then some d else none
  | none => none

/-- Digit-accumulation loop of `from_str_radix` (on an unsigned target). -/
def parseDigitsAux (radix acc : Nat) : List Char → Option Nat
  | [] => some acc
  | c :: rest =>
    match to_digit c radix with
    | some d => parseDigitsAux radix (acc * radix + d) rest
    | none => none

/-- `u64::MAX`. -/
def U64MAX : Nat := 18446744073709551615

/-- `u32::MAX`. -/
def U32MAX : Nat := 4294967295

/-- Model of `uN::from_str_radix(s, radix)` for an unsigned integer type
with maximum value `maxVal`: an optional leading `+` sign, then at least
one digit; for an unsigned target a leading `-` is not recognized as a
sign (the `is_signed_ty` guard), so it fails as an invalid digit; the
final magnitude must fit in the type. -/
def from_str_radix (maxVal : Nat) (s : List Char) (radix : Nat) : Option Nat :=
  (match s with
   | [] => none
   | c :: rest =>
     if c = '+' then (if rest = [] then none else parseDigitsAux radix 0 rest)
     else parseDigitsAux radix 0 (c :: rest)).bind
    (fun v => if v ≤ maxVal then some v else none)

/-- Model of `char::from_u32`: `some` exactly on Unicode scalar values. -/
def from_u32 (v : Nat) : Option Char :=
  if v.isValidChar then some (Char.ofNat v) else none

/-- The single-character escape table of `char_lit`
(`" n r t \ ' 0`, lines 282-288 of the source). -/
def simpleEscape (c : Char) : Option Char :=
  if c = '"' then some '"'
  else if c = 'n' then some '\n'
  else if c = 'r' then some '\r'
  else if c = 't' then some '\t'
  else if c = '\\' then some '\\'
  else if c = '\'' then some '\''
  else if c = '0' then some '\x00'
  else none

/-- The local `esc(len, lit)` of `char_lit`: parse `lit[2..len]` as hex and
convert to a scalar, consuming `len`.  A byte range reaching past the end
of the literal is an index panic in Rust, hence `none`. -/
def esc (len : Nat) (lit : List Char) : Option (Char × Nat) :=
  if lit.length < len then none
  else
    ((from_str_radix U32MAX ((lit.drop 2).take (len - 2)) 16).bind from_u32).map
      (fun x => (x, len))

/-- `char_lit` (source lines 275-327).  Returns the decoded character and
the number of characters consumed, `none` on any of the panicking paths. -/
def char_lit (lit : List Char) : Option (Char × Nat) :=
  match lit with
  | [c] => if c = '\\' then none else some (c, 1)
  | '\\' :: c :: _ =>
    match simpleEscape c with
    | some x => some (x, 2)
    | none =>
      if c = 'x' ∨ c = 'X' then esc 4 lit
      else if c = 'u' then
        if lit.get? 2 = some '{' then
          let inner := (lit.drop 3).takeWhile (fun a => a ≠ '}')
          if inner.length = (lit.drop 3).length then none
          else
            ((from_str_radix U32MAX inner 16).bind from_u32).map
              (fun x => (x, inner.length + 4))
        else esc 6 lit
      else if c = 'U' then esc 10 lit
      else none
  | _ => none

/-- The whitespace class of the local `eat` in `str_lit` and
`byte_str_lit`: space, newline, carriage return, tab. -/
def isStrWs (c : Char) : Bool :=
  c = ' ' ∨ c = '\n' ∨ c = '\r' ∨ c = '\t'

/-- `str_lit` (source lines 331-402): unescape a string literal body.
`none` models the panicking paths (trailing backslash, bare CR). -/
def str_lit : List Char → Option (List Char)
  | [] => some []
  | ['\\'] => none
  | '\\' :: '\n' :: rest => str_lit (List.dropWhile isStrWs ('\n' :: rest))
  | ['\\', '\r'] => none
  | '\\' :: '\r' :: '\n' :: rest => str_lit (List.dropWhile isStrWs ('\n' :: rest))
  | '\\' :: '\r' :: _ :: _ => none
  | '\\' :: c2 :: rest =>
    match char_lit ('\\' :: c2 :: rest) with
    | some (x, n) => (str_lit (List.drop (n - 1) (c2 :: rest))).map (fun r => x :: r)
    | none => none
  | ['\r'] => none
  | '\r' :: '\n' :: rest => (str_lit rest).map (fun r => '\n' :: r)
  | '\r' :: _ :: _ => none
  | c :: rest => (str_lit rest).map (fun r => c :: r)
  termination_by l => l.length
  decreasing_by
    all_goals
      first
      | exact Nat.lt_of_le_of_lt
          (List.Sublist.length_le (List.IsSuffix.sublist (List.dropWhile_suffix _)))
          (by simp)
      | (simp [List.length_drop]; omega)
      | simp

/-- `raw_str_lit` (source lines 406-431): the only transformation is
CRLF to LF; a CR not followed by LF is a panic (`none`). -/
def raw_str_lit : List Char → Option (List Char)
  | [] => some []
  | c :: rest =>
    if c = '\r' then
      match rest with
      | [] => none
      | c2 :: rest2 =>
        if c2 = '\n' then (raw_str_lit rest2).map (fun r => '\n' :: r) else none
    else (raw_str_lit rest).map (fun r => c :: r)

/-- Modelled from the spec: the specification's own description of raw
string decoding, "the only transformation is CRLF→LF normalization",
written directly from those words for comparison with `raw_str_lit`. -/
def specNormalizeCRLF : List Char → List Char
  | [] => []
  | '\r' :: '\n' :: rest => '\n' :: specNormalizeCRLF rest
  | c :: rest => c :: specNormalizeCRLF rest

/-- Model of `char::to_digit` on a raw byte value (`byte_lit` feeds the
bytes of `&lit[2..4]` to `u64::from_str_radix`, which reads them as
characters; a byte at or above 0x80 is never a digit). -/
def byteToDigit (b radix : Nat) : Option Nat :=
  let v : Option Nat :=
    if 48 ≤ b ∧ b ≤ 57 then some (b - 48)
    else if 97 ≤ b ∧ b ≤ 122 then some (b - 87)
    else if 65 ≤ b ∧ b ≤ 90 then some (b - 55)
    else none
  match v with
  | some d => if d < radix then some d else none
  | none => none

/-- Digit-accumulation loop of `from_str_radix`, byte-level input. -/
def byteDigitsAux (radix acc : Nat) : List Nat → Option Nat
  | [] => some acc
  | b :: rest =>
    match byteToDigit b radix with
    | some d => byteDigitsAux radix (acc * radix + d) rest
    | none => none

/-- `u64::from_str_radix` over a byte string (43 is the code of `+`; a
leading `-`, byte 45, is not a sign for the unsigned target and fails as
an invalid digit). -/
def byteFromStrRadix (s : List Nat) (radix : Nat) : Option Nat :=
  (match s with
   | [] => none
   | b :: rest =>
     if b = 43 then (if rest = [] then none else byteDigitsAux radix 0 rest)
     else byteDigitsAux radix 0 (b :: rest)).bind
    (fun v => if v ≤ U64MAX then some v else none)

/-- The single-byte escape table of `byte_lit` (source lines 480-487),
on byte values: 34 `"`, 110 `n`, 114 `r`, 116 `t`, 92 `\`, 39 `'`, 48 `0`. -/
def simpleByteEscape (b : Nat) : Option Nat :=
  if b = 34 then some 34
  else if b = 110 then some 10
  else if b = 114 then some 13
  else if b = 116 then some 9
  else if b = 92 then some 92
  else if b = 39 then some 39
  else if b = 48 then some 0
  else none

/-- `byte_lit` (source lines 473-502) over the byte sequence of the
literal body.  Returns the byte value and the consumed length, `none` on
the panicking paths (failed assert, out-of-range slice, bad digits,
value above 0xFF). -/
def byte_lit (lit : List Nat) : Option (Nat × Nat) :=
  match lit with
  | [b] => some (b, 1)
  | b0 :: b1 :: rest =>
    if b0 ≠ 92 then none
    else
      match simpleByteEscape b1 with
      | some b => some (b, 2)
      | none =>
        match rest with
        | b2 :: b3 :: _ =>
          (match byteFromStrRadix [b2, b3] 16 with
           | some c => if c > 255 then none else some (c, 4)
           | none => none)
        | _ => none
  | [] => none

/-- Underscore stripping shared by `integer_lit` and `float_lit`. -/
def stripUnderscores (s : List Char) : List Char :=
  s.filter (fun c => c ≠ '_')

/-- Radix-prefix detection of `integer_lit` (source lines 580-587): the
first two characters only, and only when the literal has more than one
character. -/
def detectBase (s2 : List Char) : Nat :=
  match s2 with
  | '0' :: c :: _ =>
    if c = 'x' then 16 else if c = 'o' then 8 else if c = 'b' then 2 else 10
  | _ => 10

/-- `looks_like_width_suffix` (source lines 434-438). -/
def looks_like_width_suffix (firstChars : List Char) (s : List Char) : Bool :=
  decide (s.length > 1) &&
    (match s with
     | c :: rest => firstChars.contains c && rest.all (fun a => '0' ≤ a ∧ a ≤ '9')
     | [] => false)

/-- `filtered_float_lit` (source lines 440-462), with the emitted
diagnostics made explicit. -/
def filtered_float_lit (data : List Char) (suffix : Option (List Char)) :
    LitKind × List Diag :=
  match suffix with
  | some suf =>
    if suf = "f32".toList then (LitKind.Float data FloatTy.F32, [])
    else if suf = "f64".toList then (LitKind.Float data FloatTy.F64, [])
    else if 2 ≤ suf.length ∧ looks_like_width_suffix ['f'] suf = true then
      (LitKind.FloatUnsuffixed data, [Diag.invalidFloatWidth (suf.drop 1)])
    else
      (LitKind.FloatUnsuffixed data, [Diag.invalidFloatSuffix suf])
  | none => (LitKind.FloatUnsuffixed data, [])

/-- `float_lit` (source lines 463-470): strip underscores, then defer to
`filtered_float_lit`. -/
def float_lit (s : List Char) (suffix : Option (List Char)) :
    LitKind × List Diag :=
  filtered_float_lit (stripUnderscores s) suffix

/-- The integer type-suffix table of `integer_lit` (source lines 609-619). -/
def intSuffixTy (suf : List Char) : Option LitIntType :=
  if suf = "isize".toList then some (LitIntType.Signed IntTy.Is)
  else if suf = "i8".toList then some (LitIntType.Signed IntTy.I8)
  else if suf = "i16".toList then some (LitIntType.Signed IntTy.I16)
  else if suf = "i32".toList then some (LitIntType.Signed IntTy.I32)
  else if suf = "i64".toList then some (LitIntType.Signed IntTy.I64)
  else if suf = "usize".toList then some (LitIntType.Unsigned UintTy.Us)
  else if suf = "u8".toList then some (LitIntType.Unsigned UintTy.U8)
  else if suf = "u16".toList then some (LitIntType.Unsigned UintTy.U16)
  else if suf = "u32".toList then some (LitIntType.Unsigned UintTy.U32)
  else if suf = "u64".toList then some (LitIntType.Unsigned UintTy.U64)
  else none

/-- The diagnostics of the `_` arm of the suffix table (source lines
620-636): a width hint for `i<digits>` / `u<digits>` shapes, the generic
message otherwise. -/
def suffixDiags (suf : List Char) : List Diag :=
  match intSuffixTy suf with
  | some _ => []
  | none =>
    if looks_like_width_suffix ['i', 'u'] suf then
      [Diag.invalidIntWidth (suf.drop 1)]
    else
      [Diag.invalidIntSuffix suf]

/-- The integer type determined by the suffix (`ty` in the source:
`Unsuffixed` when there is no suffix or the suffix is invalid). -/
def intTyOf (suffix : Option (List Char)) : LitIntType :=
  match suffix with
  | none => LitIntType.Unsuffixed
  | some suf => (intSuffixTy suf).getD LitIntType.Unsuffixed

/-- The float-radix diagnostics of the float-suffix path of `integer_lit`
(source lines 592-597). -/
def floatBaseDiags (base : Nat) : List Diag :=
  if base = 16 then [Diag.hexFloatNotSupported]
  else if base = 8 then [Diag.octFloatNotSupported]
  else if base = 2 then [Diag.binFloatNotSupported]
  else []

/-- The `already_errored` condition of `integer_lit` (source lines
651-652): base below 10 and some decimal digit of the text at least the
base. -/
def alreadyErrored (base : Nat) (s3 : List Char) : Bool :=
  decide (base < 10) && s3.any (fun c =>
    match to_digit c 10 with
    | some d => decide (base ≤ d)
    | none => false)

/-- The digit text after radix-prefix removal (`s = &s[2..]` when the
base is not 10, source lines 603-605). -/
def intDigits (s2 : List Char) : List Char :=
  if detectBase s2 ≠ 10 then s2.drop 2 else s2

/-- The final digit parse of `integer_lit` (source lines 643-659):
magnitude on success, value 0 with a conditional too-large diagnostic on
failure. -/
def finishInt (s3 : List Char) (base : Nat) (ty : LitIntType)
    (ds : List Diag) : LitKind × List Diag :=
  match from_str_radix U64MAX s3 base with
  | some r => (LitKind.Int r ty, ds)
  | none =>
    (LitKind.Int 0 ty,
      ds ++ (if alreadyErrored base s3 then [] else [Diag.intTooLarge]))

/-- `integer_lit` (source lines 564-660).  `none` models the panics
(`char_at` on an empty stripped literal, `span_bug` on an empty suffix). -/
def integer_lit (s : List Char) (suffix : Option (List Char)) :
    Option (LitKind × List Diag) :=
  let s2 := stripUnderscores s
  match s2 with
  | [] => none
  | _ :: _ =>
    let base := detectBase s2
    if (match suffix with
        | some suf => looks_like_width_suffix ['f'] suf
        | none => false) then
      let fl := filtered_float_lit s2 suffix
      some (fl.1, floatBaseDiags base ++ fl.2)
    else
      let s3 := intDigits s2
      match suffix with
      | none => some (finishInt s3 base LitIntType.Unsuffixed [])
      | some suf =>
        if suf = [] then none
        else some (finishInt s3 base (intTyOf (some suf)) (suffixDiags suf))

/-- The width-hint diagnostic class (`invalid width ...`). -/
def isWidthDiag : Diag → Bool
  | Diag.invalidIntWidth _ => true
  | Diag.invalidFloatWidth _ => true
  | _ => false

/-- The generic invalid-suffix diagnostic class (`invalid suffix ...`). -/
def isGenericSuffixDiag : Diag → Bool
  | Diag.invalidIntSuffix _ => true
  | Diag.invalidFloatSuffix _ => true
  | _ => false

/-- The `... float literal is not supported` diagnostic class. -/
def isFloatNotSupported : Diag → Bool
  | Diag.hexFloatNotSupported => true
  | Diag.octFloatNotSupported => true
  | Diag.binFloatNotSupported => true
  | _ => false

/-- The spec's suffix shape `[fiu][0-9]+`: first character `f`, `i` or
`u`, followed by one or more decimal digits. -/
def fiuShape (suf : List Char) : Bool :=
  match suf with
  | c :: rest =>
    (c = 'f' ∨ c = 'i' ∨ c = 'u') && (rest ≠ []) &&
      rest.all (fun a => '0' ≤ a ∧ a ≤ '9')
  | [] => false

/-- The suffix shape `f[0-9]+`. -/
def fShape (suf : List Char) : Bool :=
  match suf with
  | c :: rest => (c = 'f') && (rest ≠ []) && rest.all (fun a => '0' ≤ a ∧ a ≤ '9')
  | [] => false

theorem to_digit_lt {c : Char} {r d : Nat} (h : to_digit c r = some d) : d < r := by
  simp only [to_digit] at h
  split at h
  · split at h
    · cases h; assumption
    · exact absurd h (by simp)
  · exact absurd h (by simp)

theorem byteToDigit_lt {b r d : Nat} (h : byteToDigit b r = some d) : d < r := by
  simp only [byteToDigit] at h
  split at h
  · split at h
    · cases h; assumption
    · exact absurd h (by simp)
  · exact absurd h (by simp)

/-- C4: integer decoding of the four spec examples: a hexadecimal literal
with no suffix, a `u8`-suffixed decimal literal, an overflowing decimal
literal (value 0 plus the too-large diagnostic), and underscore
stripping. -/
theorem integer_lit_examples :
    integer_lit "0x1F".toList none
      = some (LitKind.Int 31 LitIntType.Unsuffixed, []) ∧
    integer_lit "10".toList (some "u8".toList)
      = some (LitKind.Int 10 (LitIntType.Unsigned UintTy.U8), []) ∧
    integer_lit "999999999999999999999".toList none
      = some (LitKind.Int 0 LitIntType.Unsuffixed, [Diag.intTooLarge]) ∧
    integer_lit "1_000".toList none
      = some (LitKind.Int 1000 LitIntType.Unsuffixed, []) := by
  refine ⟨?_, ?_, ?_, ?_⟩ <;> rfl

/-- C2 counterexample: the braced Unicode escape `\u{41}` consumes
6 characters (digit count 2 plus 4), not 5 as the claim states. -/
theorem char_lit_braced_consumes_six :
    char_lit ['\\', 'u', '{', '4', '1', '}'] ≠ some ('A', 5) ∧
    char_lit ['\\', 'u', '{', '4', '1', '}'] = some ('A', 6) := by
  refine ⟨?_, ?_⟩ <;> decide

/-- C2 amended: `\x41` decodes to `('A', 4)`, `\u{41}` to `('A', 6)`
(consumed length is digit count + 4), and `\U00000041` to `('A', 10)`. -/
theorem char_lit_escape_examples :
    char_lit "\\x41".toList = some ('A', 4) ∧
    char_lit ['\\', 'u', '{', '4', '1', '}'] = some ('A', 6) ∧
    char_lit "\\U00000041".toList = some ('A', 10) := by
  refine ⟨?_, ?_, ?_⟩ <;> decide

/-- C6: a single non-backslash character decodes to itself with consumed
length 1, and each of the seven simple escapes decodes to its control
character with consumed length 2. -/
theorem char_lit_single_and_simple (c : Char) (h : c ≠ '\\') :
    char_lit [c] = some (c, 1) ∧
    char_lit ['\\', '"'] = some ('"', 2) ∧
    char_lit ['\\', 'n'] = some ('\n', 2) ∧
    char_lit ['\\', 'r'] = some ('\r', 2) ∧
    char_lit ['\\', 't'] = some ('\t', 2) ∧
    char_lit ['\\', '\\'] = some ('\\', 2) ∧
    char_lit ['\\', '\''] = some ('\'', 2) ∧
    char_lit ['\\', '0'] = some ('\x00', 2) := by
  refine ⟨?_, ?_, ?_, ?_, ?_, ?_, ?_, ?_⟩
  · simp [char_lit, h]
  all_goals decide

/-- C6 witness at the concrete character `a`. -/
theorem char_lit_single_and_simple_witness :
    char_lit ['a'] = some ('a', 1) :=
  (char_lit_single_and_simple 'a' (by decide)).1

/-- C9: `\u` followed by a character other than `{` parses the four
characters at positions 2..6 as hex; when they are hex digits encoding a
valid Unicode scalar, the scalar is returned with consumed length 6 —
the undocumented unbraced `\uXXXX` escape form. -/
theorem char_lit_unbraced_u (d1 d2 d3 d4 : Char) (rest : List Char)
    (v1 v2 v3 v4 : Nat)
    (h1 : to_digit d1 16 = some v1) (h2 : to_digit d2 16 = some v2)
    (h3 : to_digit d3 16 = some v3) (h4 : to_digit d4 16 = some v4)
    (hv : Nat.isValidChar (((v1 * 16 + v2) * 16 + v3) * 16 + v4)) :
    char_lit ('\\' :: 'u' :: d1 :: d2 :: d3 :: d4 :: rest)
      = some (Char.ofNat (((v1 * 16 + v2) * 16 + v3) * 16 + v4), 6) := by
  have hbrace : d1 ≠ '{' := by
    intro e; rw [e] at h1
    rw [show to_digit '{' 16 = none from rfl] at h1
    exact Option.noConfusion h1
  have hplus : d1 ≠ '+' := by
    intro e; rw [e] at h1
    rw [show to_digit '+' 16 = none from rfl] at h1
    exact Option.noConfusion h1
  have b1 := to_digit_lt h1
  have b2 := to_digit_lt h2
  have b3 := to_digit_lt h3
  have b4 := to_digit_lt h4
  have hg : ('\\' :: 'u' :: d1 :: d2 :: d3 :: d4 :: rest).get? 2 = some d1 := rfl
  have hstep : char_lit ('\\' :: 'u' :: d1 :: d2 :: d3 :: d4 :: rest)
      = esc 6 ('\\' :: 'u' :: d1 :: d2 :: d3 :: d4 :: rest) := by
    simp only [char_lit]
    rw [show simpleEscape 'u' = none from rfl]
    rw [if_neg (show ¬ ('u' = 'x' ∨ 'u' = 'X') from by decide)]
    rw [if_neg (show
      ¬ (('\\' :: 'u' :: d1 :: d2 :: d3 :: d4 :: rest).get? 2 = some '{') from by
        rw [hg]; simp [hbrace])]
    rfl
  rw [hstep]
  simp only [esc]
  rw [if_neg (show ¬ ('\\' :: 'u' :: d1 :: d2 :: d3 :: d4 :: rest).length < 6 by
    simp only [List.length_cons]; omega)]
  rw [show List.take (6 - 2) (List.drop 2 ('\\' :: 'u' :: d1 :: d2 :: d3 :: d4 :: rest))
      = [d1, d2, d3, d4] from rfl]
  simp only [from_str_radix]
  rw [if_neg hplus]
  simp only [parseDigitsAux, h1, h2, h3, h4, Nat.zero_mul, Nat.zero_add,
    Option.some_bind]
  rw [if_pos (show ((v1 * 16 + v2) * 16 + v3) * 16 + v4 ≤ U32MAX by
    simp only [U32MAX]; omega)]
  simp only [Option.some_bind, from_u32, if_pos hv]
  rfl

/-- C10: the numeric-escape branch of `byte_lit` parses exactly two
bytes as hex, so the parsed value never exceeds 0xFF and the
value-above-0xFF panic branch is unreachable; a `\x` escape with two hex
digits returns that byte value with consumed length 4. -/
theorem byte_lit_numeric_escape :
    (∀ b2 b3 cv, byteFromStrRadix [b2, b3] 16 = some cv → cv ≤ 255) ∧
    (∀ h1 h2 rest v1 v2, byteToDigit h1 16 = some v1 →
      byteToDigit h2 16 = some v2 →
      byte_lit (92 :: 120 :: h1 :: h2 :: rest) = some (v1 * 16 + v2, 4)) := by
  constructor
  · intro b2 b3 cv h
    simp only [byteFromStrRadix] at h
    by_cases e43 : b2 = 43
    · rw [if_pos e43] at h
      rcases hd : byteToDigit b3 16 with _ | d
      · simp [byteDigitsAux, hd] at h
      · have hlt := byteToDigit_lt hd
        simp [byteDigitsAux, hd] at h
        omega
    · rw [if_neg e43] at h
      rcases hd2 : byteToDigit b2 16 with _ | d2
      · simp [byteDigitsAux, hd2] at h
      · rcases hd3 : byteToDigit b3 16 with _ | d3
        · simp [byteDigitsAux, hd2, hd3] at h
        · have l2 := byteToDigit_lt hd2
          have l3 := byteToDigit_lt hd3
          simp [byteDigitsAux, hd2, hd3] at h
          omega
  · intro h1 h2 rest v1 v2 hv1 hv2
    have hp : h1 ≠ 43 := by
      intro e; rw [e] at hv1
      rw [show byteToDigit 43 16 = none from rfl] at hv1
      exact Option.noConfusion hv1
    have l1 := byteToDigit_lt hv1
    have l2 := byteToDigit_lt hv2
    simp only [byte_lit]
    rw [if_neg (show ¬ (92 : Nat) ≠ 92 from by simp)]
    rw [show simpleByteEscape 120 = none from rfl]
    simp only [byteFromStrRadix]
    rw [if_neg hp]
    simp only [byteDigitsAux, hv1, hv2, Nat.zero_mul, Nat.zero_add,
      Option.some_bind]
    rw [if_pos (show v1 * 16 + v2 ≤ U64MAX from by simp only [U64MAX]; omega)]
    show (if v1 * 16 + v2 > 255 then none else some (v1 * 16 + v2, 4))
      = some (v1 * 16 + v2, 4)
    rw [if_neg (show ¬ (v1 * 16 + v2 > 255) from by omega)]

/-- C9 witness at the unbraced escape `A`. -/
theorem char_lit_unbraced_u_witness :
    char_lit ['\\', 'u', '0', '0', '4', '1'] = some ('A', 6) :=
  char_lit_unbraced_u '0' '0' '4' '1' [] 0 0 4 1 rfl rfl rfl rfl (by decide)

/-- C10 witness at the escape `\x41` (bytes 92, 120, 52, 49). -/
theorem byte_lit_numeric_escape_witness :
    (65 : Nat) ≤ 255 ∧ byte_lit [92, 120, 52, 49] = some (65, 4) :=
  ⟨byte_lit_numeric_escape.1 52 49 65 rfl,
   byte_lit_numeric_escape.2 52 49 [] 4 1 rfl rfl⟩

theorem raw_str_lit_no_cr (l : List Char) (h : '\r' ∉ l) :
    raw_str_lit l = some l := by
  induction l with
  | nil => rfl
  | cons c rest ih =>
    have hc : c ≠ '\r' := by
      intro e; exact h (e ▸ List.mem_cons_self c rest)
    have hr : '\r' ∉ rest := fun m => h (List.mem_cons_of_mem c m)
    rw [raw_str_lit.eq_def]
    simp [hc, ih hr]

theorem specNormalizeCRLF_cons (c : Char) (rest : List Char) (hc : c ≠ '\r') :
    specNormalizeCRLF (c :: rest) = c :: specNormalizeCRLF rest := by
  rw [specNormalizeCRLF.eq_def]
  rcases rest with _ | ⟨r2, rs⟩
  · simp [hc]
  · simp [hc]

theorem raw_str_lit_shape (l : List Char) :
    ∀ out, raw_str_lit l = some out → out = specNormalizeCRLF l ∧ '\r' ∉ out := by
  induction l using raw_str_lit.induct with
  | case1 =>
    intro out h
    cases h
    exact ⟨rfl, by simp⟩
  | case2 =>
    intro out h
    exact Option.noConfusion h
  | case3 rest ih =>
    intro out h
    have e : raw_str_lit ('\r' :: '\n' :: rest)
        = (raw_str_lit rest).map (fun r => '\n' :: r) := rfl
    rw [e] at h
    rcases ho : raw_str_lit rest with _ | r
    · rw [ho] at h; exact Option.noConfusion h
    · rw [ho] at h
      simp only [Option.map_some'] at h
      rcases ih r ho with ⟨h1, h2⟩
      cases h
      refine ⟨?_, ?_⟩
      · rw [show specNormalizeCRLF ('\r' :: '\n' :: rest)
          = '\n' :: specNormalizeCRLF rest from rfl, h1]
      · simp [h2]
  | case4 c rest hc =>
    intro out h
    rw [raw_str_lit.eq_def] at h
    simp [hc] at h
  | case5 c rest hc ih =>
    intro out h
    rw [raw_str_lit.eq_def] at h
    simp only [reduceIte, if_neg hc] at h
    rcases ho : raw_str_lit rest with _ | r
    · rw [ho] at h; exact Option.noConfusion h
    · rw [ho] at h
      simp only [Option.map_some'] at h
      rcases ih r ho with ⟨h1, h2⟩
      cases h
      refine ⟨?_, ?_⟩
      · rw [specNormalizeCRLF_cons c rest hc, h1]
      · simp [h2, hc]
        intro e
        exact hc e.symm

/-- C8: raw string decoding succeeds exactly by replacing CRLF pairs with
LF and leaving other characters unchanged (its successful output is the
spec's CRLF normalization), is the identity on inputs without a carriage
return, and is idempotent on its own output. -/
theorem raw_str_lit_crlf (l : List Char) :
    ('\r' ∉ l → raw_str_lit l = some l) ∧
    (∀ out, raw_str_lit l = some out →
      out = specNormalizeCRLF l ∧ raw_str_lit out = some out) := by
  refine ⟨raw_str_lit_no_cr l, ?_⟩
  intro out h
  rcases raw_str_lit_shape l out h with ⟨h1, h2⟩
  exact ⟨h1, raw_str_lit_no_cr out h2⟩

/-- C8 witness: identity on a CR-free input, and normalization plus
idempotence across one CRLF pair. -/
theorem raw_str_lit_crlf_witness :
    raw_str_lit ['a', 'b'] = some ['a', 'b'] ∧
    (['a', '\n', 'b'] = specNormalizeCRLF ['a', '\r', '\n', 'b'] ∧
      raw_str_lit ['a', '\n', 'b'] = some ['a', '\n', 'b']) :=
  ⟨(raw_str_lit_crlf ['a', 'b']).1 (by decide),
   (raw_str_lit_crlf ['a', '\r', '\n', 'b']).2 ['a', '\n', 'b'] rfl⟩

theorem dropWhile_ws_eat (ws rest : List Char)
    (hws : ∀ c ∈ ws, isStrWs c = true)
    (hrest : ∀ c, rest.head? = some c → isStrWs c = false) :
    List.dropWhile isStrWs (ws ++ rest) = rest := by
  induction ws with
  | nil =>
    cases rest with
    | nil => rfl
    | cons c t =>
      simp only [List.nil_append]
      rw [List.dropWhile_cons_of_neg (by simp [hrest c rfl])]
  | cons c t ih =>
    simp only [List.cons_append]
    rw [List.dropWhile_cons_of_pos (hws c (List.mem_cons_self c t))]
    exact ih (fun a ha => hws a (List.mem_cons_of_mem c ha))

/-- C7: in `str_lit`, a backslash followed by LF, or by CR-LF, plus the
whole maximal following run of spaces, tabs, CRs and LFs, contributes no
output characters; in particular decoding `a`, backslash, LF, three
spaces, `b` gives `ab`. -/
theorem str_lit_line_continuation (ws rest : List Char)
    (hws : ∀ c ∈ ws, isStrWs c = true)
    (hrest : ∀ c, rest.head? = some c → isStrWs c = false) :
    str_lit ('\\' :: '\n' :: (ws ++ rest)) = str_lit rest ∧
    str_lit ('\\' :: '\r' :: '\n' :: (ws ++ rest)) = str_lit rest ∧
    str_lit ['a', '\\', '\n', ' ', ' ', ' ', 'b'] = some ['a', 'b'] := by
  have ed : List.dropWhile isStrWs ('\n' :: (ws ++ rest)) = rest := by
    rw [List.dropWhile_cons_of_pos (show isStrWs '\n' = true from rfl)]
    exact dropWhile_ws_eat ws rest hws hrest
  have h0 : str_lit [] = some [] := by rw [str_lit.eq_def]
  have hb : str_lit ['b'] = some ['b'] := by
    rw [str_lit.eq_def]
    show (str_lit []).map (fun r => 'b' :: r) = some ['b']
    rw [h0]
    rfl
  have h1 : str_lit ['\\', '\n', ' ', ' ', ' ', 'b'] = str_lit ['b'] := by
    rw [str_lit.eq_def]
    rfl
  refine ⟨?_, ?_, ?_⟩
  · rw [show str_lit ('\\' :: '\n' :: (ws ++ rest))
        = str_lit (List.dropWhile isStrWs ('\n' :: (ws ++ rest))) from by
      rw [str_lit.eq_def]; rfl, ed]
  · rw [show str_lit ('\\' :: '\r' :: '\n' :: (ws ++ rest))
        = str_lit (List.dropWhile isStrWs ('\n' :: (ws ++ rest))) from by
      rw [str_lit.eq_def]; rfl, ed]
  · calc str_lit ['a', '\\', '\n', ' ', ' ', ' ', 'b']
        = (str_lit ['\\', '\n', ' ', ' ', ' ', 'b']).map (fun r => 'a' :: r) := by
          rw [str_lit.eq_def]
          rfl
      _ = some ['a', 'b'] := by rw [h1, hb]; rfl

/-- C7 witness at one space of trailing whitespace and remainder `b`. -/
theorem str_lit_line_continuation_witness :
    str_lit ('\\' :: '\n' :: ([' '] ++ ['b'])) = str_lit ['b'] ∧
    str_lit ('\\' :: '\r' :: '\n' :: ([' '] ++ ['b'])) = str_lit ['b'] ∧
    str_lit ['a', '\\', '\n', ' ', ' ', ' ', 'b'] = some ['a', 'b'] :=
  str_lit_line_continuation [' '] ['b'] (by decide)
    (fun c hc => by simp at hc; subst hc; rfl)

theorem intTooLarge_not_mem_suffixDiags (suf : List Char) :
    Diag.intTooLarge ∉ suffixDiags suf := by
  simp only [suffixDiags]
  split
  · simp
  · split
    · simp
    · simp

theorem finishInt_shape (s3 : List Char) (base : Nat) (ty : LitIntType)
    (ds : List Diag) :
    ∃ k ex, finishInt s3 base ty ds = (k, ds ++ ex) ∧
      ∀ d ∈ ex, d = Diag.intTooLarge := by
  cases h : from_str_radix U64MAX s3 base with
  | none =>
    refine ⟨LitKind.Int 0 ty,
      (if alreadyErrored base s3 then [] else [Diag.intTooLarge]), ?_, ?_⟩
    · simp [finishInt, h]
    · intro d hd
      split at hd
      · simp at hd
      · simp at hd; exact hd
  | some r =>
    exact ⟨LitKind.Int r ty, [], by simp [finishInt, h], by simp⟩

theorem integer_lit_int_path_none (s : List Char) (c0 : Char) (t0 : List Char)
    (hs : stripUnderscores s = c0 :: t0) :
    integer_lit s none
      = some (finishInt (intDigits (c0 :: t0)) (detectBase (c0 :: t0))
          LitIntType.Unsuffixed []) := by
  simp only [integer_lit, hs]
  rfl

theorem integer_lit_int_path_some (s suf : List Char) (c0 : Char) (t0 : List Char)
    (hs : stripUnderscores s = c0 :: t0)
    (hnf : looks_like_width_suffix ['f'] suf = false)
    (h0 : suf ≠ []) :
    integer_lit s (some suf)
      = some (finishInt (intDigits (c0 :: t0)) (detectBase (c0 :: t0))
          (intTyOf (some suf)) (suffixDiags suf)) := by
  simp only [integer_lit, hs, hnf]
  rw [if_neg (show ¬ (false = true) from by simp)]
  rw [if_neg h0]

theorem integer_lit_float_path (s suf : List Char) (c0 : Char) (t0 : List Char)
    (hs : stripUnderscores s = c0 :: t0)
    (hf : looks_like_width_suffix ['f'] suf = true) :
    integer_lit s (some suf)
      = some ((filtered_float_lit (c0 :: t0) (some suf)).1,
          floatBaseDiags (detectBase (c0 :: t0))
            ++ (filtered_float_lit (c0 :: t0) (some suf)).2) := by
  simp only [integer_lit, hs, hf]
  rfl

/-- C1 counterexample: `integer_lit` on the hexadecimal literal `0xg`
(digit text `g`, invalid for base 16) does emit the too-large diagnostic,
so suppression does not extend to hexadecimal literals. -/
theorem integer_lit_hex_invalid_digit_not_suppressed :
    detectBase (stripUnderscores ['0', 'x', 'g']) = 16 ∧
    integer_lit ['0', 'x', 'g'] none
      = some (LitKind.Int 0 LitIntType.Unsuffixed, [Diag.intTooLarge]) := by
  exact ⟨rfl, rfl⟩

/-- C1 amended: on digit-parse failure, `integer_lit` returns value 0
with the already-determined type, and emits the too-large diagnostic
unless the base is below 10 (binary or octal) and the digit text
contains a decimal digit at least the base — the exact `already_errored`
condition; hexadecimal failures always emit the diagnostic. -/
theorem integer_lit_overflow_amended (s : List Char) (suffix : Option (List Char))
    (hne : stripUnderscores s ≠ [])
    (hsuf : ∀ suf, suffix = some suf →
      suf ≠ [] ∧ looks_like_width_suffix ['f'] suf = false)
    (hfail : from_str_radix U64MAX (intDigits (stripUnderscores s))
      (detectBase (stripUnderscores s)) = none) :
    ∃ ds, integer_lit s suffix = some (LitKind.Int 0 (intTyOf suffix), ds) ∧
      (Diag.intTooLarge ∈ ds
        ↔ alreadyErrored (detectBase (stripUnderscores s))
            (intDigits (stripUnderscores s)) = false) := by
  rcases hs : stripUnderscores s with _ | ⟨c0, t0⟩
  · exact absurd hs hne
  rw [hs] at hfail
  have hfin : ∀ ty ds0, finishInt (intDigits (c0 :: t0)) (detectBase (c0 :: t0)) ty ds0
      = (LitKind.Int 0 ty,
          ds0 ++ (if alreadyErrored (detectBase (c0 :: t0)) (intDigits (c0 :: t0))
            then [] else [Diag.intTooLarge])) := by
    intro ty ds0
    simp [finishInt, hfail]
  rcases suffix with _ | suf
  · rw [integer_lit_int_path_none s c0 t0 hs, hfin]
    refine ⟨_, rfl, ?_⟩
    by_cases ha : alreadyErrored (detectBase (c0 :: t0)) (intDigits (c0 :: t0)) = true
    · simp [ha]
    · have ha' : alreadyErrored (detectBase (c0 :: t0)) (intDigits (c0 :: t0)) = false := by
        simpa using ha
      simp [ha']
  · obtain ⟨h0, hnf⟩ := hsuf suf rfl
    rw [integer_lit_int_path_some s suf c0 t0 hs hnf h0, hfin]
    refine ⟨_, rfl, ?_⟩
    by_cases ha : alreadyErrored (detectBase (c0 :: t0)) (intDigits (c0 :: t0)) = true
    · simp [ha, intTooLarge_not_mem_suffixDiags suf]
    · have ha' : alreadyErrored (detectBase (c0 :: t0)) (intDigits (c0 :: t0)) = false := by
        simpa using ha
      simp [ha', intTooLarge_not_mem_suffixDiags suf]

/-- C1 witness: the binary literal `0b3` fails to parse, its digit text
holds the decimal digit 3 at least the base, so the diagnostic is
suppressed. -/
theorem integer_lit_overflow_amended_witness :
    ∃ ds, integer_lit ['0', 'b', '3'] none
        = some (LitKind.Int 0 (intTyOf none), ds) ∧
      (Diag.intTooLarge ∈ ds
        ↔ alreadyErrored (detectBase (stripUnderscores ['0', 'b', '3']))
            (intDigits (stripUnderscores ['0', 'b', '3'])) = false) :=
  integer_lit_overflow_amended ['0', 'b', '3'] none (by decide)
    (fun _ h => Option.noConfusion h) (by decide)

theorem filtered_float_no_base_diag (data : List Char) (sfx : Option (List Char)) :
    ∀ d ∈ (filtered_float_lit data sfx).2, isFloatNotSupported d = false := by
  intro d hd
  rcases sfx with _ | suf
  · simp [filtered_float_lit] at hd
  · simp only [filtered_float_lit] at hd
    split at hd
    · simp at hd
    · split at hd
      · simp at hd
      · split at hd
        · simp at hd
          subst hd
          rfl
        · simp at hd
          subst hd
          rfl

theorem floatBaseDiags_supported_iff (b : Nat) :
    (∃ d ∈ floatBaseDiags b, isFloatNotSupported d = true)
      ↔ (b = 16 ∨ b = 8 ∨ b = 2) := by
  by_cases h16 : b = 16
  · subst h16; simp [floatBaseDiags, isFloatNotSupported]
  · by_cases h8 : b = 8
    · subst h8; simp [floatBaseDiags, isFloatNotSupported]
    · by_cases h2 : b = 2
      · subst h2; simp [floatBaseDiags, isFloatNotSupported]
      · simp [floatBaseDiags, h16, h8, h2]

/-- C5: an integer literal whose suffix looks like a float width
(`f` followed by digits) is reinterpreted as a float of the whole
underscore-stripped literal through `filtered_float_lit`, and a
`... float literal is not supported` diagnostic is emitted exactly when
the detected radix is 16, 8 or 2. -/
theorem integer_lit_float_width_suffix (s suf : List Char)
    (hne : stripUnderscores s ≠ [])
    (hf : looks_like_width_suffix ['f'] suf = true) :
    integer_lit s (some suf)
      = some ((filtered_float_lit (stripUnderscores s) (some suf)).1,
          floatBaseDiags (detectBase (stripUnderscores s))
            ++ (filtered_float_lit (stripUnderscores s) (some suf)).2) ∧
    ((∃ d ∈ floatBaseDiags (detectBase (stripUnderscores s))
          ++ (filtered_float_lit (stripUnderscores s) (some suf)).2,
        isFloatNotSupported d = true)
      ↔ (detectBase (stripUnderscores s) = 16 ∨ detectBase (stripUnderscores s) = 8
          ∨ detectBase (stripUnderscores s) = 2)) := by
  rcases hs : stripUnderscores s with _ | ⟨c0, t0⟩
  · exact absurd hs hne
  refine ⟨integer_lit_float_path s suf c0 t0 hs hf, ?_⟩
  constructor
  · rintro ⟨d, hd, hsup⟩
    rcases List.mem_append.mp hd with hl | hr
    · exact (floatBaseDiags_supported_iff (detectBase (c0 :: t0))).mp ⟨d, hl, hsup⟩
    · rw [filtered_float_no_base_diag (c0 :: t0) (some suf) d hr] at hsup
      exact Bool.noConfusion hsup
  · intro hb
    rcases (floatBaseDiags_supported_iff (detectBase (c0 :: t0))).mpr hb with ⟨d, hd, hsup⟩
    exact ⟨d, List.mem_append.mpr (Or.inl hd), hsup⟩

/-- C5 witness at the hexadecimal literal `0x1` with suffix `f32`. -/
theorem integer_lit_float_width_suffix_witness :
    integer_lit "0x1".toList (some "f32".toList)
      = some ((filtered_float_lit (stripUnderscores "0x1".toList)
            (some "f32".toList)).1,
          floatBaseDiags (detectBase (stripUnderscores "0x1".toList))
            ++ (filtered_float_lit (stripUnderscores "0x1".toList)
              (some "f32".toList)).2) ∧
    ((∃ d ∈ floatBaseDiags (detectBase (stripUnderscores "0x1".toList))
          ++ (filtered_float_lit (stripUnderscores "0x1".toList)
            (some "f32".toList)).2,
        isFloatNotSupported d = true)
      ↔ (detectBase (stripUnderscores "0x1".toList) = 16
          ∨ detectBase (stripUnderscores "0x1".toList) = 8
          ∨ detectBase (stripUnderscores "0x1".toList) = 2)) :=
  integer_lit_float_width_suffix "0x1".toList "f32".toList (by decide) (by decide)

theorem looks_like_length {cs suf : List Char}
    (h : looks_like_width_suffix cs suf = true) : 2 ≤ suf.length := by
  simp only [looks_like_width_suffix, Bool.and_eq_true, decide_eq_true_eq] at h
  omega

theorem looks_like_f_eq_fShape (suf : List Char) :
    looks_like_width_suffix ['f'] suf = fShape suf := by
  rcases suf with _ | ⟨c, rest⟩
  · rfl
  · rcases rest with _ | ⟨r, rs⟩
    · simp [looks_like_width_suffix, fShape]
    · rw [Bool.eq_iff_iff]
      simp [looks_like_width_suffix, fShape, List.contains_cons]

theorem fiuShape_eq (suf : List Char) :
    fiuShape suf = (fShape suf || looks_like_width_suffix ['i', 'u'] suf) := by
  rcases suf with _ | ⟨c, rest⟩
  · rfl
  · rcases rest with _ | ⟨r, rs⟩
    · simp [fiuShape, fShape, looks_like_width_suffix]
    · rw [Bool.eq_iff_iff]
      simp [fiuShape, fShape, looks_like_width_suffix, List.contains_cons]
      tauto

theorem floatBaseDiags_no_suffix_diag (b : Nat) :
    ∀ d ∈ floatBaseDiags b, isWidthDiag d = false ∧ isGenericSuffixDiag d = false := by
  intro d hd
  simp only [floatBaseDiags] at hd
  split at hd
  · simp at hd; subst hd; exact ⟨rfl, rfl⟩
  · split at hd
    · simp at hd; subst hd; exact ⟨rfl, rfl⟩
    · split at hd
      · simp at hd; subst hd; exact ⟨rfl, rfl⟩
      · simp at hd

theorem filtered_float_invalid (data suf : List Char)
    (hf32 : suf ≠ "f32".toList) (hf64 : suf ≠ "f64".toList) :
    (filtered_float_lit data (some suf)).2
      = (if looks_like_width_suffix ['f'] suf = true
          then [Diag.invalidFloatWidth (suf.drop 1)]
          else [Diag.invalidFloatSuffix suf]) := by
  simp only [filtered_float_lit]
  rw [if_neg hf32, if_neg hf64]
  by_cases hl : looks_like_width_suffix ['f'] suf = true
  · rw [if_pos ⟨looks_like_length hl, hl⟩, if_pos hl]
  · rw [if_neg (fun hc => hl hc.2), if_neg hl]

/-- C3 counterexample: the suffix `i7` matches `[fiu][0-9]+`, yet the
float decoder emits the generic invalid-suffix phrasing for it, not the
width hint. -/
theorem float_lit_iu_suffix_generic :
    fiuShape "i7".toList = true ∧
    float_lit "1.5".toList (some "i7".toList)
      = (LitKind.FloatUnsuffixed "1.5".toList,
          [Diag.invalidFloatSuffix "i7".toList]) ∧
    isWidthDiag (Diag.invalidFloatSuffix "i7".toList) = false := by
  refine ⟨rfl, rfl, rfl⟩

/-- C3 amended: for an invalid non-empty suffix, `integer_lit` picks the
width-hint phrasing exactly when the suffix matches `[fiu][0-9]+` and the
generic phrasing otherwise; the float decoder (`float_lit` /
`filtered_float_lit`) picks the width hint exactly when the suffix
matches `f[0-9]+`, so `i`/`u`-shaped suffixes get the generic float
phrasing there. -/
theorem suffix_diag_selection_amended (s suf : List Char)
    (hne : stripUnderscores s ≠ [])
    (h0 : suf ≠ [])
    (hvalid : intSuffixTy suf = none)
    (hf32 : suf ≠ "f32".toList) (hf64 : suf ≠ "f64".toList) :
    (∃ k ds, integer_lit s (some suf) = some (k, ds) ∧
      ((∃ d ∈ ds, isWidthDiag d = true) ↔ fiuShape suf = true) ∧
      ((∃ d ∈ ds, isGenericSuffixDiag d = true) ↔ fiuShape suf = false)) ∧
    ((∃ d ∈ (float_lit s (some suf)).2, isWidthDiag d = true)
      ↔ fShape suf = true) ∧
    ((∃ d ∈ (float_lit s (some suf)).2, isGenericSuffixDiag d = true)
      ↔ fShape suf = false) := by
  rcases hs : stripUnderscores s with _ | ⟨c0, t0⟩
  · exact absurd hs hne
  have hfl2 : (float_lit s (some suf)).2
      = (if looks_like_width_suffix ['f'] suf = true
          then [Diag.invalidFloatWidth (suf.drop 1)]
          else [Diag.invalidFloatSuffix suf]) := by
    simp only [float_lit]
    exact filtered_float_invalid (stripUnderscores s) suf hf32 hf64
  refine ⟨?_, ?_, ?_⟩
  · by_cases hfs : looks_like_width_suffix ['f'] suf = true
    · have hds2 := filtered_float_invalid (c0 :: t0) suf hf32 hf64
      rw [if_pos hfs] at hds2
      refine ⟨(filtered_float_lit (c0 :: t0) (some suf)).1,
        floatBaseDiags (detectBase (c0 :: t0))
          ++ (filtered_float_lit (c0 :: t0) (some suf)).2,
        integer_lit_float_path s suf c0 t0 hs hfs, ?_, ?_⟩
      · rw [hds2]
        constructor
        · intro _
          rw [fiuShape_eq, ← looks_like_f_eq_fShape, hfs]
          rfl
        · intro _
          exact ⟨Diag.invalidFloatWidth (suf.drop 1),
            List.mem_append_right _ (List.mem_singleton_self _), rfl⟩
      · rw [hds2]
        constructor
        · rintro ⟨d, hd, hg⟩
          rcases List.mem_append.mp hd with hl | hr
          · rw [(floatBaseDiags_no_suffix_diag _ d hl).2] at hg
            exact Bool.noConfusion hg
          · simp at hr
            subst hr
            exact Bool.noConfusion hg
        · intro hcon
          rw [fiuShape_eq, ← looks_like_f_eq_fShape, hfs] at hcon
          exact Bool.noConfusion hcon
    · have hfs' : looks_like_width_suffix ['f'] suf = false := by simpa using hfs
      obtain ⟨k, ex, hfin, hex⟩ := finishInt_shape (intDigits (c0 :: t0))
        (detectBase (c0 :: t0)) (intTyOf (some suf)) (suffixDiags suf)
      have hsd : suffixDiags suf
          = (if looks_like_width_suffix ['i', 'u'] suf
              then [Diag.invalidIntWidth (suf.drop 1)]
              else [Diag.invalidIntSuffix suf]) := by
        simp [suffixDiags, hvalid]
      have hfiu : fiuShape suf = looks_like_width_suffix ['i', 'u'] suf := by
        rw [fiuShape_eq, ← looks_like_f_eq_fShape, hfs']
        rfl
      refine ⟨k, suffixDiags suf ++ ex, ?_, ?_, ?_⟩
      · rw [integer_lit_int_path_some s suf c0 t0 hs hfs' h0, hfin]
      · rw [hsd, hfiu]
        by_cases hiu : looks_like_width_suffix ['i', 'u'] suf = true
        · rw [if_pos hiu, hiu]
          constructor
          · intro _; rfl
          · intro _
            exact ⟨Diag.invalidIntWidth (suf.drop 1),
              List.mem_append_left _ (List.mem_singleton_self _), rfl⟩
        · have hiu' : looks_like_width_suffix ['i', 'u'] suf = false := by
            simpa using hiu
          rw [if_neg hiu, hiu']
          constructor
          · rintro ⟨d, hd, hw⟩
            rcases List.mem_append.mp hd with hl | hr
            · simp at hl; subst hl; exact Bool.noConfusion hw
            · rw [hex d hr] at hw; exact Bool.noConfusion hw
          · intro hcon; exact Bool.noConfusion hcon
      · rw [hsd, hfiu]
        by_cases hiu : looks_like_width_suffix ['i', 'u'] suf = true
        · rw [if_pos hiu, hiu]
          constructor
          · rintro ⟨d, hd, hg⟩
            rcases List.mem_append.mp hd with hl | hr
            · simp at hl; subst hl; exact Bool.noConfusion hg
            · rw [hex d hr] at hg; exact Bool.noConfusion hg
          · intro hcon; exact Bool.noConfusion hcon
        · have hiu' : looks_like_width_suffix ['i', 'u'] suf = false := by
            simpa using hiu
          rw [if_neg hiu, hiu']
          constructor
          · intro _; rfl
          · intro _
            exact ⟨Diag.invalidIntSuffix suf,
              List.mem_append_left _ (List.mem_singleton_self _), rfl⟩
  · rw [hfl2]
    by_cases hfl : looks_like_width_suffix ['f'] suf = true
    · have hfsh : fShape suf = true := by rw [← looks_like_f_eq_fShape]; exact hfl
      rw [if_pos hfl, hfsh]
      constructor
      · intro _; rfl
      · intro _
        exact ⟨Diag.invalidFloatWidth (suf.drop 1), List.mem_singleton_self _, rfl⟩
    · have hfl' : looks_like_width_suffix ['f'] suf = false := by simpa using hfl
      have hfsh : fShape suf = false := by rw [← looks_like_f_eq_fShape]; exact hfl'
      rw [if_neg hfl, hfsh]
      constructor
      · rintro ⟨d, hd, hw⟩
        simp at hd; subst hd; exact Bool.noConfusion hw
      · intro hcon; exact Bool.noConfusion hcon
  · rw [hfl2]
    by_cases hfl : looks_like_width_suffix ['f'] suf = true
    · have hfsh : fShape suf = true := by rw [← looks_like_f_eq_fShape]; exact hfl
      rw [if_pos hfl, hfsh]
      constructor
      · rintro ⟨d, hd, hg⟩
        simp at hd; subst hd; exact Bool.noConfusion hg
      · intro hcon; exact Bool.noConfusion hcon
    · have hfl' : looks_like_width_suffix ['f'] suf = false := by simpa using hfl
      have hfsh : fShape suf = false := by rw [← looks_like_f_eq_fShape]; exact hfl'
      rw [if_neg hfl, hfsh]
      constructor
      · intro _; rfl
      · intro _
        exact ⟨Diag.invalidFloatSuffix suf, List.mem_singleton_self _, rfl⟩

/-- C3 witness at the literal `12` with the invalid suffix `i7`. -/
theorem suffix_diag_selection_amended_witness :
    (∃ k ds, integer_lit "12".toList (some "i7".toList) = some (k, ds) ∧
      ((∃ d ∈ ds, isWidthDiag d = true) ↔ fiuShape "i7".toList = true) ∧
      ((∃ d ∈ ds, isGenericSuffixDiag d = true) ↔ fiuShape "i7".toList = false)) ∧
    ((∃ d ∈ (float_lit "12".toList (some "i7".toList)).2, isWidthDiag d = true)
      ↔ fShape "i7".toList = true) ∧
    ((∃ d ∈ (float_lit "12".toList (some "i7".toList)).2,
        isGenericSuffixDiag d = true) ↔ fShape "i7".toList = false) :=
  suffix_diag_selection_amended "12".toList "i7".toList (by decide) (by decide)
    (by decide) (by decide) (by decide)

end RustParse
